import Mathlib

/-!
Verification of the retrieval-task adapter in `mteb/abstasks/AbsTaskRetrieval.py`.

The Python module adapts embedding models to the interface expected by the
external `beir` retrieval engine.  This file gives a shallow embedding of the
adapter: Python dictionaries become association lists, retrieval scores become
exact rationals, embedding vectors become lists of reals, and Python
exceptions become `Except` values.  The external `beir` engine itself is kept
abstract (a `Retriever` record of opaque functions); only the adapter code of
this repository is modelled concretely.
-/

namespace MtebRetrieval

/-- Python runtime errors raised by the adapter code: a dictionary lookup
failure on a key, or a sequence index out of range. -/
inductive PyError where
  | keyError (key : String)
  | indexError
  deriving DecidableEq

/-- Left-to-right effectful map over a list, short-circuiting at the first
error.  This models a Python list comprehension whose body may raise. -/
def traverseE {α β ε : Type} (f : α → Except ε β) : List α → Except ε (List β)
  | [] => .ok []
  | x :: xs =>
    match f x with
    | .error e => .error e
    | .ok y =>
      match traverseE f xs with
      | .error e => .error e
      | .ok ys => .ok (y :: ys)

/-- Boolean success test for an `Except` value. -/
def isOkE {ε α : Type} : Except ε α → Bool
  | .ok _ => true
  | .error _ => false

/-- Splitting a character list at every occurrence of `c`, modelling Python
`str.split` with a one-character separator. -/
def splitChar (c : Char) : List Char → List (List Char)
  | [] => [[]]
  | x :: xs =>
    if x = c then [] :: splitChar c xs
    else
      match splitChar c xs with
      | [] => [[x]]
      | y :: ys => (x :: y) :: ys

/-- Model of the Python expression `k.split("@")[1]`: the part between the
first and second `@` (or up to the end), or an `IndexError` when the string
contains no `@` at all. -/
def pySplitAt1 (s : String) : Except PyError String :=
  match splitChar '@' s.data with
  | _ :: p :: _ => .ok (String.mk p)
  | _ => .error .indexError

/-- Embedding model object handed to `AbsTaskRetrieval.evaluate`.  The field
`callableAttr name` models `callable(getattr(model, name, None))`; `isLlama`
models `isinstance(model, Llama)`; `create_embedding text` models
`model.create_embedding(text)["data"][0]["embedding"]`; `encode texts bs`
models `model.encode(texts, batch_size=bs)`. -/
structure Model where
  callableAttr : String → Bool
  isLlama : Bool
  create_embedding : String → List ℝ
  encode : List String → Nat → List (List ℝ)

/-- Method names required by the BeIR dense-retrieval interface, from the
module-level constant `DRES_METHODS`. -/
def DRES_METHODS : List String := ["encode_queries", "encode_corpus"]

/-- Model of `AbsTaskRetrieval.is_dres_compatible`: every method name in
`DRES_METHODS` must resolve to a callable attribute of the model. -/
def is_dres_compatible (m : Model) : Bool :=
  DRES_METHODS.all fun meth => m.callableAttr meth

/-- Fallback adapter `DRESModel` wrapping a model together with the separator
placed between a document title and its body (constructor default `" "`). -/
structure DRESModel where
  model : Model
  sep : String := " "

/-- Sum of squared entries of an embedding vector. -/
noncomputable def sumSq (v : List ℝ) : ℝ := (v.map fun x => x * x).sum

/-- Euclidean norm of an embedding vector. -/
noncomputable def euclNorm (v : List ℝ) : ℝ := Real.sqrt (sumSq v)

/-- Clamp value `1e-12`, the default `eps` of `torch.nn.functional.normalize`. -/
noncomputable def normEps : ℝ := 1 / 10 ^ 12

/-- Model of `F.normalize(t, p=2, dim=-1)`: each entry is divided by the
Euclidean norm of the vector clamped from below by `normEps`. -/
noncomputable def l2normalize (v : List ℝ) : List ℝ :=
  v.map fun x => x / max (euclNorm v) normEps

/-- Task instruction string hard-coded in `DRESModel.llama_wrapper_queries`. -/
def task_description : String :=
  "Given a web search query, retrieve relevant passages that answer the query"

/-- Model of `DRESModel.get_detailed_instruct`. -/
def get_detailed_instruct (task_desc query : String) : String :=
  "Instruct: " ++ task_desc ++ "\nQuery: " ++ query

/-- Model of `DRESModel.llama_wrapper`: a `Llama` model embeds every string
separately and the raw embedding is L2-normalized; for any other model the
generic `encode` method is called and its output returned unchanged. -/
noncomputable def DRESModel.llama_wrapper (d : DRESModel) (queries : List String)
    (batch_size : Nat) : List (List ℝ) :=
  if d.model.isLlama then
    queries.map fun q => l2normalize (d.model.create_embedding q)
  else
    d.model.encode queries batch_size

/-- Model of `DRESModel.llama_wrapper_queries`: every query is prefixed with
the detailed instruction before `llama_wrapper` is called. -/
noncomputable def DRESModel.llama_wrapper_queries (d : DRESModel)
    (queries : List String) (batch_size : Nat) : List (List ℝ) :=
  d.llama_wrapper (queries.map fun q => get_detailed_instruct task_description q) batch_size

/-- Model of `DRESModel.llama_wrapper_corpus`: sentences are passed to
`llama_wrapper` unchanged. -/
noncomputable def DRESModel.llama_wrapper_corpus (d : DRESModel)
    (queries : List String) (batch_size : Nat) : List (List ℝ) :=
  d.llama_wrapper queries batch_size

/-- Model of `DRESModel.encode_queries` (the sbert branch only emits log
messages and is therefore not modelled). -/
noncomputable def DRESModel.encode_queries (d : DRESModel) (queries : List String)
    (batch_size : Nat) : List (List ℝ) :=
  d.llama_wrapper_queries queries batch_size

/-- Document dictionary of a corpus entry; only the `title` and `text` keys
are accessed by the adapter, a missing key is `none`. -/
structure DocEntry where
  title : Option String
  text : Option String
  deriving DecidableEq

/-- Corpus argument of `DRESModel.encode_corpus`: either a dict of columns
(`type(corpus) is dict`) or a list of document dicts. -/
inductive Corpus where
  | columns (title : Option (List String)) (text : Option (List String))
  | docs (entries : List DocEntry)
  deriving DecidableEq

/-- Sentence built from one document dict in the list-shaped branch of
`encode_corpus`; `String.trim` models Python `str.strip()`. -/
def docSentence (sep : String) (doc : DocEntry) : Except PyError String :=
  match doc.title, doc.text with
  | some t, some x => .ok (String.trim (t ++ sep ++ x))
  | some _, none => .error (.keyError "text")
  | none, some x => .ok (String.trim x)
  | none, none => .error (.keyError "text")

/-- Sentence built for index `i` in the dict-of-columns branch of
`encode_corpus`, including the Python indexing that can raise `IndexError`. -/
def columnsSentence (sep : String) (title : Option (List String))
    (texts : List String) (i : Nat) : Except PyError String :=
  match title with
  | some titles =>
    match titles[i]?, texts[i]? with
    | some t, some x => .ok (String.trim (t ++ sep ++ x))
    | none, _ => .error .indexError
    | some _, none => .error .indexError
  | none =>
    match texts[i]? with
    | some x => .ok (String.trim x)
    | none => .error .indexError

/-- Sentence list built by `DRESModel.encode_corpus` before encoding. -/
def corpusSentences (sep : String) : Corpus → Except PyError (List String)
  | .columns title text =>
    match text with
    | none => .error (.keyError "text")
    | some texts => traverseE (columnsSentence sep title texts) (List.range texts.length)
  | .docs entries => traverseE (docSentence sep) entries

/-- Model of `DRESModel.encode_corpus`: build the sentence list, then encode
it through `llama_wrapper_corpus`; lookup errors propagate unmodified. -/
noncomputable def DRESModel.encode_corpus (d : DRESModel) (corpus : Corpus)
    (batch_size : Nat) : Except PyError (List (List ℝ)) :=
  match corpusSentences d.sep corpus with
  | .error e => .error e
  | .ok sentences => .ok (d.llama_wrapper_corpus sentences batch_size)

/-- Modelled from the spec claim wording: the sentence for one document is
the concatenation of title, separator and text, stripped, when a title is
present, and the stripped text alone otherwise. -/
def specSentence (sep : String) : Option String → String → String
  | some t, x => String.trim (t ++ sep ++ x)
  | none, x => String.trim x

/-- Modelled from the spec claim wording: the per-document sentences of a
corpus, in corpus order. -/
def specCorpusSentences (sep : String) : Corpus → List String
  | .columns title text =>
    let texts := text.getD []
    match title with
    | some titles => (titles.zip texts).map fun p => specSentence sep (some p.1) p.2
    | none => texts.map fun x => specSentence sep none x
  | .docs entries => entries.map fun e => specSentence sep e.title (e.text.getD "")

/-- Well-formedness of a corpus: every document has a `text` value, and in
the dict-of-columns shape a `title` column (when present) is at least as long
as the `text` column. -/
def wfCorpus : Corpus → Bool
  | .columns title text =>
    match text with
    | none => false
    | some texts =>
      match title with
      | none => true
      | some titles => decide (texts.length ≤ titles.length)
  | .docs entries => entries.all fun e => e.text.isSome

/-- Model handed to the external retrieval engine: either the original model
object unchanged, or the model wrapped in a `DRESModel`. -/
inductive EngineModel where
  | native (m : Model)
  | wrapped (d : DRESModel)

/-- Model selection on line 59 of `evaluate`:
`model = model if self.is_dres_compatible(model) else DRESModel(model)`. -/
def selectModel (m : Model) : EngineModel :=
  if is_dres_compatible m then .native m else .wrapped ⟨m, " "⟩

/-- Search engine constructed by `evaluate`: the sequential
`DenseRetrievalExactSearch` or the parallel
`DenseRetrievalParallelExactSearch`, with the arguments handed to it. -/
inductive Engine where
  | dres (m : EngineModel) (batch_size : Nat) (corpus_chunk_size : Nat)
  | drpes (m : EngineModel) (batch_size : Nat) (corpus_chunk_size : Option Nat)

/-- Model object carried by a constructed engine. -/
def engineModelOf : Engine → EngineModel
  | .dres m _ _ => m
  | .drpes m _ _ => m

/-- Keyword arguments of `AbsTaskRetrieval.evaluate`, with their Python
default values. -/
structure EvalArgs where
  batch_size : Nat := 128
  corpus_chunk_size : Option Nat := none
  score_function : String := "cos_sim"
  parallel_retrieval : Bool := false

/-- Observable outcome of the setup phase of `evaluate`: whether `load_data`
was invoked during the call, and the engine that was constructed. -/
structure SetupTrace where
  loadedData : Bool
  engine : Engine

/-- Installation instruction embedded in the import-failure message. -/
def beirInstallInstruction : String := "`pip install mteb[beir]`"

/-- Error message raised by `evaluate` when the `beir` import fails. -/
def beirMissingMsg : String :=
  "Retrieval tasks require beir package. Please install it with " ++ beirInstallInstruction

/-- Model of the setup phase of `AbsTaskRetrieval.evaluate` (lines 51-81):
the `beir` import is attempted first and its failure aborts the call before
any data loading, model inspection or engine construction; otherwise data is
loaded when not yet loaded, the model is wrapped when needed, and the engine
is built according to `parallel_retrieval` and `corpus_chunk_size`. -/
def evaluateSetup (beirAvailable : Bool) (dataLoaded : Bool) (model : Model)
    (args : EvalArgs) : Except String SetupTrace :=
  if beirAvailable then
    let loaded := !dataLoaded
    let m := selectModel model
    if args.parallel_retrieval then
      .ok ⟨loaded, .drpes m args.batch_size args.corpus_chunk_size⟩
    else
      .ok ⟨loaded, .dres m args.batch_size (args.corpus_chunk_size.getD 50000)⟩
  else
    .error beirMissingMsg

/-- Per-query retrieval output: document id paired with its score. -/
abbrev DocScores := List (String × ℚ)

/-- Retrieval results: query id mapped to its retrieved documents. -/
abbrev ResultsMap := List (String × DocScores)

/-- Relevance judgments: query id mapped to graded document relevances. -/
abbrev QrelsMap := List (String × List (String × Nat))

/-- Metric dictionary as returned by the external evaluator or produced by
`_evaluate_monolingual`. -/
abbrev MetricMap := List (String × ℚ)

/-- Corpus argument of `retriever.retrieve` (kept opaque to the claims). -/
abbrev RCorpus := List (String × DocEntry)

/-- Queries argument of `retriever.retrieve` (kept opaque to the claims). -/
abbrev RQueries := List (String × String)

/-- Ordering used by `sorted(results[qid], key=lambda x: results[qid][x],
reverse=True)`: descending by score; `List.insertionSort` with this relation
is stable, like Python `sorted`. -/
def scoreGE (a b : String × ℚ) : Prop := b.2 ≤ a.2

instance : DecidableRel scoreGE := fun a b => inferInstanceAs (Decidable (b.2 ≤ a.2))

instance : IsTotal (String × ℚ) scoreGE := ⟨fun a b => le_total b.2 a.2⟩

instance : IsTrans (String × ℚ) scoreGE := ⟨fun _ _ _ hab hbc => le_trans hbc hab⟩

/-- Model of `set(sorted(results[qid], key=..., reverse=True)[:top_k])`: the
ids of the `top_k` highest-scoring documents of one query. -/
def topKIds (tk : Nat) (docs : DocScores) : List String :=
  ((List.insertionSort scoreGE docs).take tk).map Prod.fst

/-- Model of `{k: v for k, v in results[qid].items() if k in doc_ids}`. -/
def truncateDocs (tk : Nat) (docs : DocScores) : DocScores :=
  docs.filter fun kv => decide (kv.1 ∈ topKIds tk docs)

/-- Model of the in-place per-query truncation loop of
`_evaluate_monolingual`. -/
def truncateTopK (tk : Nat) (results : ResultsMap) : ResultsMap :=
  results.map fun q => (q.1, truncateDocs tk q.2)

/-- Renaming of one metric key, modelling
`f"ndcg_at_{k.split('@')[1]}": v`. -/
def renameKV (pre : String) (kv : String × ℚ) : Except PyError (String × ℚ) :=
  match pySplitAt1 kv.1 with
  | .error e => .error e
  | .ok p => .ok (pre ++ "_at_" ++ p, kv.2)

/-- Renaming of a whole metric dictionary returned by the external
evaluator. -/
def renameMetric (pre : String) (m : MetricMap) : Except PyError MetricMap :=
  traverseE (renameKV pre) m

/-- Model of the flat `scores` dictionary literal of
`_evaluate_monolingual`: the five renamed metric dictionaries merged in
order. -/
def flatScores (ndcg mp rc pr mrr : MetricMap) : Except PyError MetricMap :=
  match renameMetric "ndcg" ndcg with
  | .error e => .error e
  | .ok a =>
    match renameMetric "map" mp with
    | .error e => .error e
    | .ok b =>
      match renameMetric "recall" rc with
      | .error e => .error e
      | .ok c =>
        match renameMetric "precision" pr with
        | .error e => .error e
        | .ok d =>
          match renameMetric "mrr" mrr with
          | .error e => .error e
          | .ok m => .ok (a ++ b ++ c ++ d ++ m)

/-- External `EvaluateRetrieval` object, kept abstract: `retrieve` models
`retriever.retrieve(corpus, queries)`, `eval4` models `retriever.evaluate`
returning the nDCG, MAP, Recall and Precision dictionaries, and `evalCustom`
models `retriever.evaluate_custom`. -/
structure Retriever where
  k_values : List Nat
  retrieve : RCorpus → RQueries → ResultsMap
  eval4 : QrelsMap → ResultsMap → List Nat → Bool → MetricMap × MetricMap × MetricMap × MetricMap
  evalCustom : QrelsMap → ResultsMap → List Nat → String → MetricMap

/-- Keyword arguments read by `_evaluate_monolingual`, with their
`kwargs.get` default values. -/
structure MonoKwargs where
  save_qrels : Bool := false
  output_folder : String := "results"
  top_k : Option Nat := none
  ignore_identical_ids : Bool := true

/-- Path of the saved qrels file, modelling the two f-strings of
`_evaluate_monolingual`. -/
def qrelsSavePath (output_folder task_name : String) (lang : Option String) : String :=
  match lang with
  | none => output_folder ++ "/" ++ task_name ++ "_qrels.json"
  | some l => output_folder ++ "/" ++ task_name ++ "_" ++ l ++ "_qrels.json"

/-- Metric computation tail of `_evaluate_monolingual`: `retriever.evaluate`,
`retriever.evaluate_custom` for MRR, then the flat scores dictionary. -/
def monoScores (r : Retriever) (relevant_docs : QrelsMap) (res : ResultsMap)
    (ignore_identical_ids : Bool) : Except PyError MetricMap :=
  let q4 := r.eval4 relevant_docs res r.k_values ignore_identical_ids
  flatScores q4.1 q4.2.1 q4.2.2.1 q4.2.2.2 (r.evalCustom relevant_docs res r.k_values "mrr")

/-- Observable outcome of `_evaluate_monolingual`: the files written (path
and JSON-dumped content), the results dictionary passed to the metric
computation, and the scores (or the error raised while computing them; the
file write happens before the metric computation). -/
structure MonoOutcome where
  writes : List (String × ResultsMap)
  metricInput : ResultsMap
  scores : Except PyError MetricMap

/-- Model of `AbsTaskRetrieval._evaluate_monolingual`: retrieve, optionally
truncate the results in place to `top_k` per query and save them as JSON,
then compute the metrics over the (possibly truncated) results. -/
def evaluateMonolingual (r : Retriever) (corpus : RCorpus) (queries : RQueries)
    (relevant_docs : QrelsMap) (lang : Option String) (task_name : String)
    (kw : MonoKwargs) : MonoOutcome :=
  let results := r.retrieve corpus queries
  let results2 :=
    if kw.save_qrels then
      match kw.top_k with
      | some tk => truncateTopK tk results
      | none => results
    else results
  let writes :=
    if kw.save_qrels then [(qrelsSavePath kw.output_folder task_name lang, results2)]
    else []
  { writes := writes
    metricInput := results2
    scores := monoScores r relevant_docs results2 kw.ignore_identical_ids }

/-- Concrete model exposing only a callable `encode_queries` attribute. -/
def mQOnly : Model :=
  ⟨fun s => s == "encode_queries", false, fun _ => [], fun _ _ => []⟩

/-- Concrete model with neither required attribute and a trivial generic
encode method. -/
def mPlain : Model :=
  ⟨fun _ => false, false, fun _ => [], fun ss _ => ss.map fun _ => []⟩

/-- Adapter around `mPlain`. -/
def dPlain : DRESModel := ⟨mPlain, " "⟩

/-- Concrete Llama-family model whose raw embeddings are `[3, 4]`. -/
noncomputable def mLlamaEx : Model :=
  ⟨fun _ => false, true, fun _ => [3, 4], fun _ _ => []⟩

/-- Adapter around `mLlamaEx`. -/
noncomputable def dLlamaEx : DRESModel := ⟨mLlamaEx, " "⟩

/-- Concrete non-Llama model whose generic encode method returns the
non-unit vector `[2, 0]` for every input string. -/
noncomputable def mGenEx : Model :=
  ⟨fun _ => false, false, fun _ => [], fun ss _ => ss.map fun _ => [2, 0]⟩

/-- Adapter around `mGenEx`. -/
noncomputable def dGenEx : DRESModel := ⟨mGenEx, " "⟩

/-- Concrete non-Llama model whose generic encode method distinguishes the
exact string `"x"` from every other string. -/
noncomputable def mObsEx : Model :=
  ⟨fun _ => false, false, fun _ => [], fun ss _ => ss.map fun s => if s = "x" then [1] else [0]⟩

/-- Adapter around `mObsEx`. -/
noncomputable def dObsEx : DRESModel := ⟨mObsEx, " "⟩

/-- Concrete sequential-engine arguments: all defaults. -/
def argsSeq : EvalArgs := ⟨128, none, "cos_sim", false⟩

/-- Concrete parallel-engine arguments with an explicit chunk size. -/
def argsPar : EvalArgs := ⟨64, some 7, "dot", true⟩

/-- Concrete retriever returning three scored documents for one query and
empty metric dictionaries. -/
def rEx : Retriever :=
  ⟨[10], fun _ _ => [("q", [("d1", 1), ("d2", 3), ("d3", 2)])],
   fun _ _ _ _ => ([], [], [], []), fun _ _ _ _ => []⟩

/-- Concrete kwargs asking for qrels saving truncated to the top 2. -/
def kwEx : MonoKwargs := ⟨true, "results", some 2, true⟩

/-- Concrete kwargs with all defaults. -/
def kwDef : MonoKwargs := ⟨false, "results", none, true⟩

/-- Concrete retriever whose external metric dictionaries have the canonical
BeIR key shape at cutoff 10. -/
def rEx5 : Retriever :=
  ⟨[10], fun _ _ => [],
   fun _ _ _ _ =>
     ([("NDCG@10", 1 / 2)], [("MAP@10", 1 / 3)], [("Recall@10", 1 / 4)], [("P@10", 1 / 5)]),
   fun _ _ _ _ => [("MRR@10", 1 / 6)]⟩

/-- Concrete corpus in list shape whose first document misses its text. -/
def entriesBad : List DocEntry := [⟨some "t", none⟩]

/-- Concrete corpus in list shape with texts present and one title missing. -/
def entriesGood : List DocEntry := [⟨some "A", some " b "⟩, ⟨none, some " c "⟩]

/-- C1: a model is handed to the external retrieval engine unchanged if and
only if both `encode_queries` and `encode_corpus` resolve to callable
attributes; otherwise it is wrapped in a `DRESModel` (with the default
separator), and the engine built by `evaluate` carries exactly the selected
model. -/
theorem dres_passthrough_iff (m : Model) :
    (is_dres_compatible m = true ↔
      (m.callableAttr "encode_queries" = true ∧ m.callableAttr "encode_corpus" = true))
    ∧ (is_dres_compatible m = true → selectModel m = .native m)
    ∧ (is_dres_compatible m = false → selectModel m = .wrapped ⟨m, " "⟩)
    ∧ ∀ (dl : Bool) (args : EvalArgs) (t : SetupTrace),
        evaluateSetup true dl m args = .ok t → engineModelOf t.engine = selectModel m := by
  refine ⟨?_, ?_, ?_, ?_⟩
  · simp [is_dres_compatible, DRES_METHODS]
  · intro h
    simp [selectModel, h]
  · intro h
    simp [selectModel, h]
  · intro dl args t h
    by_cases hp : args.parallel_retrieval = true <;>
      simp [evaluateSetup, hp] at h <;> rw [← h] <;> rfl

/-- Witness for C1 at a model exposing only `encode_queries`. -/
theorem dres_passthrough_iff_witness :
    is_dres_compatible mQOnly = false
      ∧ selectModel mQOnly = .wrapped ⟨mQOnly, " "⟩ :=
  ⟨by decide, (dres_passthrough_iff mQOnly).2.2.1 (by decide)⟩

/-- C4: when the `beir` import fails, `evaluate` raises immediately, before
data loading, model inspection or engine construction (the outcome is an
error that does not depend on the data-loaded flag, the model or the
arguments), and the message carries the installation instruction. -/
theorem beir_missing_fails (dl dl' : Bool) (m m' : Model) (args args' : EvalArgs) :
    evaluateSetup false dl m args = .error beirMissingMsg
    ∧ evaluateSetup false dl m args = evaluateSetup false dl' m' args'
    ∧ beirMissingMsg
        = "Retrieval tasks require beir package. Please install it with "
            ++ beirInstallInstruction :=
  ⟨rfl, rfl, rfl⟩

/-- C10: with `parallel_retrieval` false and `corpus_chunk_size` `None`, the
exact-search engine receives the default chunk size `50000`; with
`parallel_retrieval` true, the given `corpus_chunk_size` (including `None`)
is handed to the parallel engine unchanged. -/
theorem engine_chunk_defaults (dl : Bool) (m : Model) (args : EvalArgs) :
    (args.parallel_retrieval = false → args.corpus_chunk_size = none →
      evaluateSetup true dl m args
        = .ok ⟨!dl, .dres (selectModel m) args.batch_size 50000⟩)
    ∧ (args.parallel_retrieval = true →
      evaluateSetup true dl m args
        = .ok ⟨!dl, .drpes (selectModel m) args.batch_size args.corpus_chunk_size⟩) := by
  constructor
  · intro h1 h2
    simp [evaluateSetup, h1, h2]
  · intro h1
    simp [evaluateSetup, h1]

/-- Witness for C10 at concrete sequential and parallel argument records. -/
theorem engine_chunk_defaults_witness :
    argsSeq.parallel_retrieval = false ∧ argsSeq.corpus_chunk_size = none
    ∧ evaluateSetup true false mQOnly argsSeq
        = .ok ⟨true, .dres (selectModel mQOnly) argsSeq.batch_size 50000⟩
    ∧ argsPar.parallel_retrieval = true
    ∧ evaluateSetup true false mQOnly argsPar
        = .ok ⟨true, .drpes (selectModel mQOnly) argsPar.batch_size argsPar.corpus_chunk_size⟩ := by
  refine ⟨rfl, rfl, ?_, rfl, ?_⟩
  · exact (engine_chunk_defaults false mQOnly argsSeq).1 rfl rfl
  · exact (engine_chunk_defaults false mQOnly argsPar).2 rfl

lemma sumSq_cons (x : ℝ) (v : List ℝ) : sumSq (x :: v) = x * x + sumSq v := by
  simp [sumSq]

lemma sumSq_nonneg (v : List ℝ) : 0 ≤ sumSq v := by
  induction v with
  | nil => simp [sumSq]
  | cons x v ih =>
    rw [sumSq_cons]
    exact add_nonneg (mul_self_nonneg x) ih

lemma sumSq_map_div (v : List ℝ) (n : ℝ) :
    sumSq (v.map fun x => x / n) = sumSq v / (n * n) := by
  induction v with
  | nil => simp [sumSq]
  | cons x v ih =>
    simp only [List.map_cons, sumSq_cons, ih]
    rw [div_mul_div_comm, div_add_div_same]

/-- C2 (amended): on the Llama path every produced embedding is the
L2-normalization of the raw embedding, and such a normalized vector has unit
Euclidean norm whenever the raw norm is at least the `1e-12` clamp; on the
generic-encode path the wrapped model's output is returned unchanged, with
no normalization applied. -/
theorem llama_normalized_generic_raw (d : DRESModel) (qs : List String) (batch_size : Nat) :
    (d.model.isLlama = true →
      d.llama_wrapper qs batch_size = qs.map fun q => l2normalize (d.model.create_embedding q))
    ∧ (d.model.isLlama = false →
      d.llama_wrapper qs batch_size = d.model.encode qs batch_size)
    ∧ ∀ v : List ℝ, normEps ≤ euclNorm v → euclNorm (l2normalize v) = 1 := by
  refine ⟨fun h => by simp [DRESModel.llama_wrapper, h],
    fun h => by simp [DRESModel.llama_wrapper, h], ?_⟩
  intro v hv
  have hepspos : (0 : ℝ) < normEps := by norm_num [normEps]
  have hnormpos : 0 < euclNorm v := lt_of_lt_of_le hepspos hv
  have hS : 0 < sumSq v := Real.sqrt_pos.mp hnormpos
  have hmax : max (euclNorm v) normEps = euclNorm v := max_eq_left hv
  simp only [l2normalize]
  rw [hmax, euclNorm, euclNorm, sumSq_map_div, Real.mul_self_sqrt (sumSq_nonneg v),
    div_self (ne_of_gt hS), Real.sqrt_one]

/-- Witness for C2 (amended) at a Llama model with raw embedding `[3, 4]`. -/
theorem llama_normalized_generic_raw_witness :
    dLlamaEx.model.isLlama = true
    ∧ dLlamaEx.llama_wrapper ["a"] 1 = [l2normalize [(3 : ℝ), 4]]
    ∧ normEps ≤ euclNorm [(3 : ℝ), 4]
    ∧ euclNorm (l2normalize [(3 : ℝ), 4]) = 1 := by
  obtain ⟨h1, _, h3⟩ := llama_normalized_generic_raw dLlamaEx ["a"] 1
  have hnorm : euclNorm [(3 : ℝ), 4] = 5 := by
    have hs : sumSq [(3 : ℝ), 4] = 25 := by norm_num [sumSq]
    rw [euclNorm, hs, show (25 : ℝ) = 5 ^ 2 by norm_num,
      Real.sqrt_sq (by norm_num : (0 : ℝ) ≤ 5)]
  have heps : normEps ≤ euclNorm [(3 : ℝ), 4] := by
    rw [hnorm, normEps]
    norm_num
  refine ⟨rfl, ?_, heps, h3 _ heps⟩
  rw [h1 rfl]
  rfl

/-- Counterexample to C2 as stated: a non-Llama model with a generic encode
method produces the embedding `[2, 0]` through the adapter, whose Euclidean
norm is `2`, not `1`. -/
theorem generic_not_normalized_cex :
    mGenEx.isLlama = false
    ∧ DRESModel.encode_queries dGenEx ["a"] 4 = [[(2 : ℝ), 0]]
    ∧ euclNorm [(2 : ℝ), 0] ≠ 1 := by
  refine ⟨rfl, rfl, ?_⟩
  have hnorm : euclNorm [(2 : ℝ), 0] = 2 := by
    have hs : sumSq [(2 : ℝ), 0] = 4 := by norm_num [sumSq]
    rw [euclNorm, hs, show (4 : ℝ) = 2 ^ 2 by norm_num,
      Real.sqrt_sq (by norm_num : (0 : ℝ) ≤ 2)]
  rw [hnorm]
  norm_num

/-- C8 (amended): `encode_queries` prefixes every query with the detailed
instruction for every wrapped model, Llama or not, while the corpus path
never applies the prefix; for a Llama model the prefixed query is embedded
and normalized, for any other model the prefixed queries are handed to the
generic encode method. -/
theorem query_instruct_all_models (d : DRESModel) (qs ss : List String) (batch_size : Nat) :
    DRESModel.encode_queries d qs batch_size
      = (if d.model.isLlama then
          qs.map fun q =>
            l2normalize (d.model.create_embedding (get_detailed_instruct task_description q))
        else
          d.model.encode (qs.map fun q => get_detailed_instruct task_description q) batch_size)
    ∧ d.llama_wrapper_corpus ss batch_size
      = (if d.model.isLlama then ss.map fun s => l2normalize (d.model.create_embedding s)
        else d.model.encode ss batch_size) := by
  constructor
  · cases h : d.model.isLlama <;>
      simp [DRESModel.encode_queries, DRESModel.llama_wrapper_queries,
        DRESModel.llama_wrapper, h, List.map_map, Function.comp]
  · cases h : d.model.isLlama <;>
      simp [DRESModel.llama_wrapper_corpus, DRESModel.llama_wrapper, h]

/-- Counterexample to C8 as stated: for a non-Llama model the string `"x"`
is embedded differently as a query (prefix applied before the generic encode
call) and as a corpus sentence (no prefix). -/
theorem nonllama_prefix_cex :
    mObsEx.isLlama = false
    ∧ DRESModel.encode_queries dObsEx ["x"] 1 = [[(0 : ℝ)]]
    ∧ dObsEx.llama_wrapper_corpus ["x"] 1 = [[(1 : ℝ)]]
    ∧ [[(0 : ℝ)]] ≠ [[(1 : ℝ)]] := by
  have hne : get_detailed_instruct task_description "x" ≠ "x" := by decide
  refine ⟨rfl, ?_, ?_, by norm_num⟩
  · simp [DRESModel.encode_queries, DRESModel.llama_wrapper_queries,
      DRESModel.llama_wrapper, dObsEx, mObsEx, hne]
  · simp [DRESModel.llama_wrapper_corpus, DRESModel.llama_wrapper, dObsEx, mObsEx]

lemma traverseE_ok_of {α β ε : Type} (f : α → Except ε β) (g : α → β) :
    ∀ l : List α, (∀ a ∈ l, f a = .ok (g a)) → traverseE f l = .ok (l.map g) := by
  intro l
  induction l with
  | nil => intro _; rfl
  | cons x xs ih =>
    intro h
    simp only [traverseE, h x (List.mem_cons_self x xs),
      ih fun a ha => h a (List.mem_cons_of_mem x ha), List.map_cons]

lemma docSentence_ok (sep : String) (e : DocEntry) (x : String) (h : e.text = some x) :
    docSentence sep e = .ok (specSentence sep e.title x) := by
  cases ht : e.title <;> simp [docSentence, specSentence, h, ht]

lemma docSentence_err (sep : String) (e : DocEntry) (h : e.text = none) :
    docSentence sep e = .error (.keyError "text") := by
  cases ht : e.title <;> simp [docSentence, h, ht]

lemma traverseE_docs_err (sep : String) :
    ∀ entries : List DocEntry, (∃ e ∈ entries, e.text = none) →
      traverseE (docSentence sep) entries = .error (.keyError "text") := by
  intro entries
  induction entries with
  | nil => intro h; simp at h
  | cons e es ih =>
    intro h
    cases ht : e.text with
    | none => simp [traverseE, docSentence_err sep e ht]
    | some x =>
      have hex : ∃ e' ∈ es, e'.text = none := by
        rcases h with ⟨e', he', hn⟩
        rcases List.mem_cons.mp he' with rfl | hmem
        · rw [hn] at ht; exact Option.noConfusion ht
        · exact ⟨e', hmem, hn⟩
      simp [traverseE, docSentence_ok sep e x ht, ih hex]

lemma range_map_getD {α β : Type} (f : α → β) (dflt : α) :
    ∀ l : List α, (List.range l.length).map (fun i => f (l.getD i dflt)) = l.map f := by
  intro l
  induction l with
  | nil => rfl
  | cons x xs ih =>
    rw [List.length_cons, List.range_succ_eq_map, List.map_cons, List.map_map]
    exact congrArg (List.cons (f x)) ih

lemma range_map_getD2 {α β γ : Type} (f : α → β → γ) (d1 : α) (d2 : β) :
    ∀ (l2 : List β) (l1 : List α), l2.length ≤ l1.length →
      (List.range l2.length).map (fun i => f (l1.getD i d1) (l2.getD i d2))
        = (l1.zip l2).map fun p => f p.1 p.2 := by
  intro l2
  induction l2 with
  | nil => intro l1 _; simp
  | cons y ys ih =>
    intro l1 h
    cases l1 with
    | nil => simp at h
    | cons x xs =>
      rw [List.length_cons, List.range_succ_eq_map, List.map_cons, List.map_map,
        List.zip_cons_cons, List.map_cons]
      have hlen : ys.length ≤ xs.length := by simpa using h
      exact congrArg (List.cons (f x y)) (ih xs hlen)

lemma corpusSentences_spec (sep : String) (c : Corpus) (h : wfCorpus c = true) :
    corpusSentences sep c = .ok (specCorpusSentences sep c) := by
  cases c with
  | docs entries =>
    have hall : ∀ e ∈ entries, e.text.isSome = true := by
      simpa [wfCorpus, List.all_eq_true] using h
    simp only [corpusSentences]
    apply traverseE_ok_of
    intro e he
    obtain ⟨x, hx⟩ := Option.isSome_iff_exists.mp (hall e he)
    rw [docSentence_ok sep e x hx, hx]
    rfl
  | columns title text =>
    cases text with
    | none => simp [wfCorpus] at h
    | some texts =>
      cases title with
      | none =>
        have h1 : traverseE (columnsSentence sep none texts) (List.range texts.length)
            = .ok ((List.range texts.length).map fun i => String.trim (texts.getD i "")) := by
          apply traverseE_ok_of
          intro i hi
          have hlt : i < texts.length := List.mem_range.mp hi
          simp [columnsSentence, List.getElem?_eq_getElem hlt, List.getD_eq_getElem?_getD]
        have h2 := range_map_getD (fun x : String => String.trim x) "" texts
        simp only [corpusSentences]
        rw [h1, h2]
        rfl
      | some titles =>
        have hlen : texts.length ≤ titles.length := by simpa [wfCorpus] using h
        have h1 : traverseE (columnsSentence sep (some titles) texts) (List.range texts.length)
            = .ok ((List.range texts.length).map fun i =>
                String.trim (titles.getD i "" ++ sep ++ texts.getD i "")) := by
          apply traverseE_ok_of
          intro i hi
          have hlt : i < texts.length := List.mem_range.mp hi
          have hlt2 : i < titles.length := lt_of_lt_of_le hlt hlen
          simp [columnsSentence, List.getElem?_eq_getElem hlt, List.getElem?_eq_getElem hlt2,
            List.getD_eq_getElem?_getD]
        have h2 := range_map_getD2 (fun t x : String => String.trim (t ++ sep ++ x)) "" ""
          texts titles hlen
        simp only [corpusSentences]
        rw [h1, h2]
        rfl

/-- C3: on every well-formed corpus (text present everywhere, and a title
column at least as long as the text column), `encode_corpus` encodes, in
corpus order, the stripped concatenation of title, separator and text when a
title is present and the stripped text alone otherwise, in both the
dict-of-columns and the list-of-dicts shape. -/
theorem encode_corpus_sentence_construction (sep : String) (d : DRESModel) (c : Corpus)
    (batch_size : Nat) (h : wfCorpus c = true) :
    corpusSentences sep c = .ok (specCorpusSentences sep c)
    ∧ DRESModel.encode_corpus d c batch_size
        = .ok (d.llama_wrapper_corpus (specCorpusSentences d.sep c) batch_size) := by
  refine ⟨corpusSentences_spec sep c h, ?_⟩
  simp only [DRESModel.encode_corpus, corpusSentences_spec d.sep c h]

/-- Witness for C3 at a two-document corpus, one document with a title and
one without. -/
theorem encode_corpus_sentence_construction_witness :
    wfCorpus (.docs entriesGood) = true
    ∧ corpusSentences " " (.docs entriesGood) = .ok (specCorpusSentences " " (.docs entriesGood))
    ∧ DRESModel.encode_corpus dPlain (.docs entriesGood) 2
        = .ok (dPlain.llama_wrapper_corpus (specCorpusSentences dPlain.sep (.docs entriesGood)) 2) := by
  have h : wfCorpus (.docs entriesGood) = true := by decide
  obtain ⟨h1, h2⟩ := encode_corpus_sentence_construction " " dPlain (.docs entriesGood) 2 h
  exact ⟨h, h1, h2⟩

/-- C9: a corpus entry without the `text` key makes `encode_corpus` raise
the underlying `KeyError` unmodified (no catch or recovery), a missing
`title` alone does not raise, and a dict-shaped corpus without a `text`
column raises the same `KeyError`. -/
theorem missing_text_key_propagates (sep : String) (d : DRESModel)
    (entries : List DocEntry) (batch_size : Nat) (title : Option (List String)) :
    ((∃ e ∈ entries, e.text = none) →
      corpusSentences sep (.docs entries) = .error (.keyError "text")
      ∧ DRESModel.encode_corpus d (.docs entries) batch_size = .error (.keyError "text"))
    ∧ ((∀ e ∈ entries, e.text.isSome = true) →
      isOkE (corpusSentences sep (.docs entries)) = true)
    ∧ corpusSentences sep (.columns title none) = .error (.keyError "text") := by
  refine ⟨?_, ?_, rfl⟩
  · intro hex
    have h2 : corpusSentences d.sep (Corpus.docs entries) = .error (.keyError "text") := by
      simp only [corpusSentences]
      exact traverseE_docs_err d.sep entries hex
    refine ⟨?_, ?_⟩
    · simp only [corpusSentences]
      exact traverseE_docs_err sep entries hex
    · simp only [DRESModel.encode_corpus, h2]
  · intro hall
    have hok : corpusSentences sep (.docs entries) = .ok (specCorpusSentences sep (.docs entries)) := by
      apply corpusSentences_spec
      simpa [wfCorpus, List.all_eq_true] using hall
    rw [hok]
    rfl

/-- Witness for C9 at a document missing its text and a corpus without
titles. -/
theorem missing_text_key_propagates_witness :
    (∃ e ∈ entriesBad, e.text = none)
    ∧ corpusSentences " " (.docs entriesBad) = .error (.keyError "text")
    ∧ DRESModel.encode_corpus dPlain (.docs entriesBad) 1 = .error (.keyError "text")
    ∧ (∀ e ∈ entriesGood, e.text.isSome = true)
    ∧ isOkE (corpusSentences " " (.docs entriesGood)) = true := by
  have hex : ∃ e ∈ entriesBad, e.text = none := by decide
  have hall : ∀ e ∈ entriesGood, e.text.isSome = true := by decide
  obtain ⟨h1, h2⟩ := (missing_text_key_propagates " " dPlain entriesBad 1 none).1 hex
  exact ⟨hex, h1, h2, hall,
    (missing_text_key_propagates " " dPlain entriesGood 1 none).2.1 hall⟩

lemma strData_append (a b : String) : (a ++ b).data = a.data ++ b.data := rfl

lemma splitChar_of_not_mem (c : Char) :
    ∀ l : List Char, c ∉ l → splitChar c l = [l] := by
  intro l
  induction l with
  | nil => intro _; rfl
  | cons x xs ih =>
    intro h
    simp only [List.mem_cons, not_or] at h
    simp only [splitChar, ih h.2, if_neg (show ¬x = c from fun hxc => h.1 hxc.symm)]

lemma splitChar_append (c : Char) :
    ∀ l1 l2 : List Char, c ∉ l1 → splitChar c (l1 ++ c :: l2) = l1 :: splitChar c l2 := by
  intro l1
  induction l1 with
  | nil => intro l2 _; simp [splitChar]
  | cons x xs ih =>
    intro l2 h
    simp only [List.mem_cons, not_or] at h
    simp only [List.cons_append, splitChar, List.append_eq, ih l2 h.2,
      if_neg (show ¬x = c from fun hxc => h.1 hxc.symm)]

lemma pySplitAt1_key (tag s : String) (htag : '@' ∉ tag.data) (hs : '@' ∉ s.data) :
    pySplitAt1 (tag ++ "@" ++ s) = .ok s := by
  have hdata : (tag ++ "@" ++ s).data = tag.data ++ '@' :: s.data := by
    rw [strData_append, strData_append, show ("@" : String).data = ['@'] from rfl,
      List.append_assoc]
    rfl
  simp only [pySplitAt1, hdata, splitChar_append '@' tag.data s.data htag,
    splitChar_of_not_mem '@' s.data hs]

lemma renameMetric_canonical (pre tag : String) (htag : '@' ∉ tag.data) :
    ∀ (ks : List String) (f : String → ℚ), (∀ s ∈ ks, '@' ∉ s.data) →
      renameMetric pre (ks.map fun s => (tag ++ "@" ++ s, f s))
        = .ok (ks.map fun s => (pre ++ "_at_" ++ s, f s)) := by
  intro ks f
  induction ks with
  | nil => intro _; rfl
  | cons s ks ih =>
    intro h
    have hs : '@' ∉ s.data := h s (List.mem_cons_self s ks)
    have hkv : renameKV pre (tag ++ "@" ++ s, f s) = .ok (pre ++ "_at_" ++ s, f s) := by
      simp only [renameKV, pySplitAt1_key tag s htag hs]
    have htail := ih fun a ha => h a (List.mem_cons_of_mem s ha)
    simp only [renameMetric] at htail ⊢
    simp only [List.map_cons, traverseE, hkv, htail]

/-- C5: for every monolingual evaluation whose external evaluator returns
the canonical BeIR-shaped metric dictionaries (keys `NDCG@k`, `MAP@k`,
`Recall@k`, `P@k` and `MRR@k` over the cutoff list), the returned scores
mapping is the flat table holding, for each cutoff `k`, exactly the five
keys `ndcg_at_k`, `map_at_k`, `recall_at_k`, `precision_at_k` and `mrr_at_k`
with the corresponding external values. -/
theorem monolingual_scores_flat_table
    (r : Retriever) (corpus : RCorpus) (queries : RQueries) (rd : QrelsMap)
    (lang : Option String) (task_name : String) (kw : MonoKwargs)
    (ks : List String) (fN fM fR fP fMr : String → ℚ)
    (hks : ∀ s ∈ ks, '@' ∉ s.data)
    (h4 : r.eval4 rd (evaluateMonolingual r corpus queries rd lang task_name kw).metricInput
        r.k_values kw.ignore_identical_ids
      = (ks.map fun s => ("NDCG@" ++ s, fN s), ks.map fun s => ("MAP@" ++ s, fM s),
         ks.map fun s => ("Recall@" ++ s, fR s), ks.map fun s => ("P@" ++ s, fP s)))
    (hm : r.evalCustom rd (evaluateMonolingual r corpus queries rd lang task_name kw).metricInput
        r.k_values "mrr" = ks.map fun s => ("MRR@" ++ s, fMr s)) :
    (evaluateMonolingual r corpus queries rd lang task_name kw).scores
      = .ok ((ks.map fun s => ("ndcg_at_" ++ s, fN s))
          ++ (ks.map fun s => ("map_at_" ++ s, fM s))
          ++ (ks.map fun s => ("recall_at_" ++ s, fR s))
          ++ (ks.map fun s => ("precision_at_" ++ s, fP s))
          ++ (ks.map fun s => ("mrr_at_" ++ s, fMr s))) := by
  have hN : renameMetric "ndcg" (ks.map fun s => ("NDCG@" ++ s, fN s))
      = .ok (ks.map fun s => ("ndcg_at_" ++ s, fN s)) :=
    renameMetric_canonical "ndcg" "NDCG" (by decide) ks fN hks
  have hM : renameMetric "map" (ks.map fun s => ("MAP@" ++ s, fM s))
      = .ok (ks.map fun s => ("map_at_" ++ s, fM s)) :=
    renameMetric_canonical "map" "MAP" (by decide) ks fM hks
  have hR : renameMetric "recall" (ks.map fun s => ("Recall@" ++ s, fR s))
      = .ok (ks.map fun s => ("recall_at_" ++ s, fR s)) :=
    renameMetric_canonical "recall" "Recall" (by decide) ks fR hks
  have hP : renameMetric "precision" (ks.map fun s => ("P@" ++ s, fP s))
      = .ok (ks.map fun s => ("precision_at_" ++ s, fP s)) :=
    renameMetric_canonical "precision" "P" (by decide) ks fP hks
  have hMr : renameMetric "mrr" (ks.map fun s => ("MRR@" ++ s, fMr s))
      = .ok (ks.map fun s => ("mrr_at_" ++ s, fMr s)) :=
    renameMetric_canonical "mrr" "MRR" (by decide) ks fMr hks
  have hsc : (evaluateMonolingual r corpus queries rd lang task_name kw).scores
      = monoScores r rd
          (evaluateMonolingual r corpus queries rd lang task_name kw).metricInput
          kw.ignore_identical_ids := rfl
  rw [hsc]
  simp only [monoScores]
  rw [h4, hm]
  dsimp only
  simp only [flatScores, hN, hM, hR, hP, hMr]

/-- Witness for C5 at a concrete retriever with canonical external metric
dictionaries at cutoff 10. -/
theorem monolingual_scores_flat_table_witness :
    (∀ s ∈ ["10"], '@' ∉ s.data)
    ∧ rEx5.eval4 [] (evaluateMonolingual rEx5 [] [] [] none "task" kwDef).metricInput
        rEx5.k_values kwDef.ignore_identical_ids
      = (["10"].map fun s => ("NDCG@" ++ s, (1 : ℚ) / 2),
         ["10"].map fun s => ("MAP@" ++ s, (1 : ℚ) / 3),
         ["10"].map fun s => ("Recall@" ++ s, (1 : ℚ) / 4),
         ["10"].map fun s => ("P@" ++ s, (1 : ℚ) / 5))
    ∧ rEx5.evalCustom [] (evaluateMonolingual rEx5 [] [] [] none "task" kwDef).metricInput
        rEx5.k_values "mrr" = (["10"].map fun s => ("MRR@" ++ s, (1 : ℚ) / 6))
    ∧ (evaluateMonolingual rEx5 [] [] [] none "task" kwDef).scores
      = .ok ((["10"].map fun s => ("ndcg_at_" ++ s, (1 : ℚ) / 2))
          ++ (["10"].map fun s => ("map_at_" ++ s, (1 : ℚ) / 3))
          ++ (["10"].map fun s => ("recall_at_" ++ s, (1 : ℚ) / 4))
          ++ (["10"].map fun s => ("precision_at_" ++ s, (1 : ℚ) / 5))
          ++ (["10"].map fun s => ("mrr_at_" ++ s, (1 : ℚ) / 6))) := by
  refine ⟨by decide, rfl, rfl, ?_⟩
  exact monolingual_scores_flat_table rEx5 [] [] [] none "task" kwDef ["10"]
    (fun _ => 1 / 2) (fun _ => 1 / 3) (fun _ => 1 / 4) (fun _ => 1 / 5) (fun _ => 1 / 6)
    (by decide) rfl rfl

lemma truncateDocs_sublist (tk : Nat) (docs : DocScores) :
    (truncateDocs tk docs).Sublist docs :=
  List.filter_sublist docs

lemma topKIds_length (tk : Nat) (docs : DocScores) : (topKIds tk docs).length ≤ tk := by
  simp only [topKIds, List.length_map, List.length_take]
  exact min_le_left _ _

lemma mem_truncateDocs {tk : Nat} {docs : DocScores} {p : String × ℚ} :
    p ∈ truncateDocs tk docs ↔ p ∈ docs ∧ p.1 ∈ topKIds tk docs := by
  simp [truncateDocs, List.mem_filter]

lemma truncateDocs_length (tk : Nat) (docs : DocScores)
    (h : (docs.map Prod.fst).Nodup) : (truncateDocs tk docs).length ≤ tk := by
  have hsub : (truncateDocs tk docs).Sublist docs := truncateDocs_sublist tk docs
  have hnd : ((truncateDocs tk docs).map Prod.fst).Nodup := (hsub.map Prod.fst).nodup h
  have hss : ((truncateDocs tk docs).map Prod.fst) ⊆ topKIds tk docs := by
    intro a ha
    obtain ⟨kv, hkv, rfl⟩ := List.mem_map.mp ha
    exact (mem_truncateDocs.mp hkv).2
  calc (truncateDocs tk docs).length
      = ((truncateDocs tk docs).map Prod.fst).length := (List.length_map _ _).symm
    _ ≤ (topKIds tk docs).length := (List.subperm_of_subset hnd hss).length_le
    _ ≤ tk := topKIds_length tk docs

lemma truncateDocs_dominates (tk : Nat) (docs : DocScores)
    (hnd : (docs.map Prod.fst).Nodup) {p q : String × ℚ}
    (hp : p ∈ truncateDocs tk docs) (hq : q ∈ docs)
    (hq' : q ∉ truncateDocs tk docs) : q.2 ≤ p.2 := by
  have hperm : List.Perm (List.insertionSort scoreGE docs) docs :=
    List.perm_insertionSort scoreGE docs
  have hsorted : List.Pairwise scoreGE (List.insertionSort scoreGE docs) :=
    List.sorted_insertionSort scoreGE docs
  have hpmem := mem_truncateDocs.mp hp
  have hqid : q.1 ∉ topKIds tk docs := fun hmem => hq' (mem_truncateDocs.mpr ⟨hq, hmem⟩)
  have hpid : p.1 ∈ ((List.insertionSort scoreGE docs).take tk).map Prod.fst := by
    simpa [topKIds] using hpmem.2
  obtain ⟨p', hp'take, hp'fst⟩ := List.mem_map.mp hpid
  have hp'docs : p' ∈ docs := hperm.mem_iff.mp (List.mem_of_mem_take hp'take)
  have hpp : p' = p := List.inj_on_of_nodup_map hnd hp'docs hpmem.1 hp'fst
  have hqs : q ∈ List.insertionSort scoreGE docs := hperm.mem_iff.mpr hq
  have hqdrop : q ∈ (List.insertionSort scoreGE docs).drop tk := by
    have hsplit : q ∈ (List.insertionSort scoreGE docs).take tk
        ∨ q ∈ (List.insertionSort scoreGE docs).drop tk := by
      rw [← List.mem_append, List.take_append_drop]
      exact hqs
    rcases hsplit with h | h
    · exact absurd (by simpa [topKIds] using List.mem_map_of_mem Prod.fst h) hqid
    · exact h
  have hpairwise : List.Pairwise scoreGE
      ((List.insertionSort scoreGE docs).take tk
        ++ (List.insertionSort scoreGE docs).drop tk) := by
    rw [List.take_append_drop]
    exact hsorted
  have hge : scoreGE p' q := (List.pairwise_append.mp hpairwise).2.2 p' hp'take q hqdrop
  rw [hpp] at hge
  exact hge

/-- C6: a qrels JSON file is written exactly when `save_qrels` is set, at
`output_folder/task_qrels.json` (with the language inserted before `_qrels`
for multilingual tasks), mapping every retrieved query id to document ids
and scores; with `top_k` also given, each query keeps at most `top_k`
entries, every kept entry scores at least as high as every dropped one, and
the saved entries are a sub-sequence of the retrieved ones. -/
theorem save_qrels_file_write
    (r : Retriever) (corpus : RCorpus) (queries : RQueries) (rd : QrelsMap)
    (lang : Option String) (task_name : String) (kw : MonoKwargs) (tk : Nat) :
    (kw.save_qrels = false →
      (evaluateMonolingual r corpus queries rd lang task_name kw).writes = [])
    ∧ (kw.save_qrels = true → kw.top_k = none →
      (evaluateMonolingual r corpus queries rd lang task_name kw).writes
        = [(qrelsSavePath kw.output_folder task_name lang, r.retrieve corpus queries)])
    ∧ (kw.save_qrels = true → kw.top_k = some tk →
      (evaluateMonolingual r corpus queries rd lang task_name kw).writes
        = [(qrelsSavePath kw.output_folder task_name lang,
            truncateTopK tk (r.retrieve corpus queries))])
    ∧ (∀ f t : String, qrelsSavePath f t none = f ++ "/" ++ t ++ "_qrels.json")
    ∧ (∀ f t lg : String,
        qrelsSavePath f t (some lg) = f ++ "/" ++ t ++ "_" ++ lg ++ "_qrels.json")
    ∧ (truncateTopK tk (r.retrieve corpus queries)).map Prod.fst
        = (r.retrieve corpus queries).map Prod.fst
    ∧ (∀ docs : DocScores, (truncateDocs tk docs).Sublist docs)
    ∧ (∀ docs : DocScores, (docs.map Prod.fst).Nodup →
        (truncateDocs tk docs).length ≤ tk
        ∧ ∀ p ∈ truncateDocs tk docs, ∀ q ∈ docs, q ∉ truncateDocs tk docs → q.2 ≤ p.2) := by
  refine ⟨?_, ?_, ?_, fun f t => rfl, fun f t lg => rfl, ?_,
    fun docs => truncateDocs_sublist tk docs,
    fun docs h => ⟨truncateDocs_length tk docs h,
      fun p hp q hq hq' => truncateDocs_dominates tk docs h hp hq hq'⟩⟩
  · intro h
    simp [evaluateMonolingual, h]
  · intro h1 h2
    simp [evaluateMonolingual, h1, h2]
  · intro h1 h2
    simp [evaluateMonolingual, h1, h2]
  · simp [truncateTopK]

/-- Witness for C6 at a retriever returning three scored documents and
kwargs saving the top 2. -/
theorem save_qrels_file_write_witness :
    kwEx.save_qrels = true ∧ kwEx.top_k = some 2
    ∧ (evaluateMonolingual rEx [] [] [] none "task" kwEx).writes
        = [(qrelsSavePath kwEx.output_folder "task" none, truncateTopK 2 (rEx.retrieve [] []))]
    ∧ (([("d1", (1 : ℚ)), ("d2", 3), ("d3", 2)] : DocScores).map Prod.fst).Nodup
    ∧ (truncateDocs 2 [("d1", (1 : ℚ)), ("d2", 3), ("d3", 2)]).length ≤ 2 := by
  refine ⟨rfl, rfl, ?_, by decide, ?_⟩
  · exact (save_qrels_file_write rEx [] [] [] none "task" kwEx 2).2.2.1 rfl rfl
  · exact ((save_qrels_file_write rEx [] [] [] none "task" kwEx 2).2.2.2.2.2.2.2
      [("d1", (1 : ℚ)), ("d2", 3), ("d3", 2)] (by decide)).1

/-- C7: with `save_qrels` and `top_k` both set, the results dictionary is
truncated in place before the metric computation, so the metrics are
computed over the truncated results (the same data that is saved); with
`save_qrels` unset the metrics are computed over the full retrieval
output. -/
theorem metrics_use_truncated_results
    (r : Retriever) (corpus : RCorpus) (queries : RQueries) (rd : QrelsMap)
    (lang : Option String) (task_name : String) (kw : MonoKwargs) (tk : Nat) :
    (kw.save_qrels = true → kw.top_k = some tk →
      (evaluateMonolingual r corpus queries rd lang task_name kw).metricInput
          = truncateTopK tk (r.retrieve corpus queries)
      ∧ (evaluateMonolingual r corpus queries rd lang task_name kw).scores
          = monoScores r rd (truncateTopK tk (r.retrieve corpus queries))
              kw.ignore_identical_ids
      ∧ (evaluateMonolingual r corpus queries rd lang task_name kw).writes
          = [(qrelsSavePath kw.output_folder task_name lang,
              (evaluateMonolingual r corpus queries rd lang task_name kw).metricInput)])
    ∧ (kw.save_qrels = false →
      (evaluateMonolingual r corpus queries rd lang task_name kw).metricInput
          = r.retrieve corpus queries
      ∧ (evaluateMonolingual r corpus queries rd lang task_name kw).scores
          = monoScores r rd (r.retrieve corpus queries) kw.ignore_identical_ids) := by
  constructor
  · intro h1 h2
    refine ⟨?_, ?_, ?_⟩ <;> simp [evaluateMonolingual, h1, h2]
  · intro h1
    constructor <;> simp [evaluateMonolingual, h1]

/-- Witness for C7 at the same concrete retriever, once saving with top 2
and once with defaults. -/
theorem metrics_use_truncated_results_witness :
    kwEx.save_qrels = true ∧ kwEx.top_k = some 2
    ∧ (evaluateMonolingual rEx [] [] [] none "task" kwEx).metricInput
        = truncateTopK 2 (rEx.retrieve [] [])
    ∧ kwDef.save_qrels = false
    ∧ (evaluateMonolingual rEx [] [] [] none "task" kwDef).metricInput = rEx.retrieve [] [] := by
  refine ⟨rfl, rfl, ?_, rfl, ?_⟩
  · exact ((metrics_use_truncated_results rEx [] [] [] none "task" kwEx 2).1 rfl rfl).1
  · exact ((metrics_use_truncated_results rEx [] [] [] none "task" kwDef 2).2 rfl).1

end MtebRetrieval
